import Mathlib

/-!
Shallow embedding of the `quaternions` Rust crate (src/lib.rs).

The crate is generic over a floating-point scalar `T: Float`; here the
scalar is modelled as an arbitrary field (a linearly ordered field where
an order is needed, and the real numbers for the trigonometric
constructor), so the exact algebra of the code's formulas can be
checked.  The machine epsilon `T::epsilon()` is a parameter of the
approximate-equality predicate, with the `f32` value available as an
exact rational constant.  Every operation is translated clause by
clause from the source; the in-place (`*_mut` / `*_assign`) methods are
modelled as state transformers performing the same sequence of field
assignments as the Rust code.
-/

namespace Quaternions

/-- Structure `Quaternion` with fields `w`, `x`, `y`, `z` (src/lib.rs). -/
structure Quaternion (K : Type) where
  w : K
  x : K
  y : K
  z : K
deriving DecidableEq

section Defs

variable {K : Type}

/-- Shortcut of creating a quaternion (`fn q`). -/
def q (w x y z : K) : Quaternion K := ⟨w, x, y, z⟩

/-- Modelled from the spec: `num_traits::Float`'s `T::from` conversion of a
host `i32` into a standard float scalar type, which the spec states is
infallible ("treat as an infallible conversion"); missing from src/ because
it lives in the external `num_traits` crate.  It is modelled as the integer
cast into the scalar field, wrapped in `some`. -/
def numFromI32 (K : Type) [Field K] (n : Int) : Option K := some (n : K)

/-- Shortcut of creating a quaternion from integers (`fn qi`), after the
four `unwrap` calls have succeeded: each component is the converted value
of the corresponding argument. -/
def qi [Field K] (w x y z : Int) : Quaternion K :=
  q (w : K) (x : K) (y : K) (z : K)

/-- The fallible path through `fn qi` with the `unwrap`s made explicit:
the four conversions are sequenced in the `Option` monad, so the result is
`none` exactly when some conversion fails. -/
def qiChecked (K : Type) [Field K] (w x y z : Int) : Option (Quaternion K) :=
  match numFromI32 K w, numFromI32 K x, numFromI32 K y, numFromI32 K z with
  | some w', some x', some y', some z' => some (q w' x' y' z')
  | _, _, _, _ => none

namespace Quaternion

variable [Field K]

/-- Returns an identity quaternion (`fn id`). -/
def id : Quaternion K := ⟨1, 0, 0, 0⟩

/-- Scales a quaternion element-wise by a scalar, returning a new one
(`fn scale`). -/
def scale (a : Quaternion K) (t : K) : Quaternion K :=
  ⟨a.w * t, a.x * t, a.y * t, a.z * t⟩

/-- In-place scale (`fn scale_mut`): the four sequential field
assignments of the source, as successive states. -/
def scale_mut (a : Quaternion K) (t : K) : Quaternion K :=
  let s1 : Quaternion K := ⟨a.w * t, a.x, a.y, a.z⟩
  let s2 : Quaternion K := ⟨s1.w, s1.x * t, s1.y, s1.z⟩
  let s3 : Quaternion K := ⟨s2.w, s2.x, s2.y * t, s2.z⟩
  ⟨s3.w, s3.x, s3.y, s3.z * t⟩

/-- The quaternion conjugate (`fn conjugate`). -/
def conjugate (a : Quaternion K) : Quaternion K := ⟨a.w, -a.x, -a.y, -a.z⟩

/-- In-place conjugate (`fn conjugate_mut`): sequential assignments. -/
def conjugate_mut (a : Quaternion K) : Quaternion K :=
  let s1 : Quaternion K := ⟨a.w, -a.x, a.y, a.z⟩
  let s2 : Quaternion K := ⟨s1.w, s1.x, -s1.y, s1.z⟩
  ⟨s2.w, s2.x, s2.y, -s2.z⟩

/-- The square length of a quaternion (`fn square_length`). -/
def square_length (a : Quaternion K) : K :=
  a.w * a.w + a.x * a.x + a.y * a.y + a.z * a.z

/-- Dot product of two quaternions (`fn dot`). -/
def dot (a b : Quaternion K) : K :=
  a.w * b.w + a.x * b.x + a.y * b.y + a.z * b.z

/-- The inverse of a quaternion (`fn inverse`): scale by one over the
square length, then conjugate. -/
def inverse (a : Quaternion K) : Quaternion K :=
  (a.scale (1 / a.square_length)).conjugate

/-- In-place inverse (`fn inverse_mut`): `scale_mut` by one over the
square length of the current state, then `conjugate_mut`. -/
def inverse_mut (a : Quaternion K) : Quaternion K :=
  (a.scale_mut (1 / a.square_length)).conjugate_mut

/-- Component-wise sum (`impl Add`). -/
def add (a b : Quaternion K) : Quaternion K :=
  ⟨a.w + b.w, a.x + b.x, a.y + b.y, a.z + b.z⟩

/-- In-place sum (`impl AddAssign`): sequential field assignments. -/
def add_assign (a b : Quaternion K) : Quaternion K :=
  let s1 : Quaternion K := ⟨a.w + b.w, a.x, a.y, a.z⟩
  let s2 : Quaternion K := ⟨s1.w, s1.x + b.x, s1.y, s1.z⟩
  let s3 : Quaternion K := ⟨s2.w, s2.x, s2.y + b.y, s2.z⟩
  ⟨s3.w, s3.x, s3.y, s3.z + b.z⟩

/-- Component-wise difference (`impl Sub`). -/
def sub (a b : Quaternion K) : Quaternion K :=
  ⟨a.w - b.w, a.x - b.x, a.y - b.y, a.z - b.z⟩

/-- In-place difference (`impl SubAssign`): sequential field assignments. -/
def sub_assign (a b : Quaternion K) : Quaternion K :=
  let s1 : Quaternion K := ⟨a.w - b.w, a.x, a.y, a.z⟩
  let s2 : Quaternion K := ⟨s1.w, s1.x - b.x, s1.y, s1.z⟩
  let s3 : Quaternion K := ⟨s2.w, s2.x, s2.y - b.y, s2.z⟩
  ⟨s3.w, s3.x, s3.y, s3.z - b.z⟩

/-- Hamilton product (`impl Mul`). -/
def mul (a b : Quaternion K) : Quaternion K :=
  ⟨a.w * b.w - a.x * b.x - a.y * b.y - a.z * b.z,
   a.w * b.x + a.x * b.w + a.y * b.z - a.z * b.y,
   a.w * b.y - a.x * b.z + a.y * b.w + a.z * b.x,
   a.w * b.z + a.x * b.y - a.y * b.x + a.z * b.w⟩

/-- In-place Hamilton product (`impl MulAssign`): the four components are
computed into temporaries from the current state, then assigned. -/
def mul_assign (a b : Quaternion K) : Quaternion K :=
  let w := a.w * b.w - a.x * b.x - a.y * b.y - a.z * b.z
  let x := a.w * b.x + a.x * b.w + a.y * b.z - a.z * b.y
  let y := a.w * b.y - a.x * b.z + a.y * b.w + a.z * b.x
  let z := a.w * b.z + a.x * b.y - a.y * b.x + a.z * b.w
  ⟨w, x, y, z⟩

/-- Component-wise negation (`impl Neg`). -/
def neg (a : Quaternion K) : Quaternion K := ⟨-a.w, -a.x, -a.y, -a.z⟩

instance : Add (Quaternion K) := ⟨add⟩

instance : Sub (Quaternion K) := ⟨sub⟩

instance : Mul (Quaternion K) := ⟨mul⟩

instance : Neg (Quaternion K) := ⟨neg⟩

/-- Division (`impl Div`): right-multiplication by the divisor's inverse. -/
def div (a b : Quaternion K) : Quaternion K := a.mul b.inverse

instance : Div (Quaternion K) := ⟨div⟩

end Quaternion

/-- The `PartialEq` implementation: the square length of the difference is
strictly below the scalar type's machine epsilon, which is passed here as
the parameter `eps` standing for `T::epsilon()`. -/
def approx_eq {K : Type} [LinearOrderedField K] (eps : K) (a b : Quaternion K) : Prop :=
  (a - b).square_length < eps

/-- The machine epsilon of `f32` (`f32::EPSILON`), as an exact rational:
two to the minus twenty-third power. -/
def epsF32 : ℚ := 1 / 2 ^ 23

/-- Euler-angle constructor (`fn from_euler_angles`) over real scalars,
translated let by let from the source. -/
noncomputable def from_euler_angles (x y z : ℝ) : Quaternion ℝ :=
  let two : ℝ := 1 + 1
  let half_x := x / two
  let half_y := y / two
  let half_z := z / two
  let cos_x_2 := Real.cos half_x
  let cos_y_2 := Real.cos half_y
  let cos_z_2 := Real.cos half_z
  let sin_x_2 := Real.sin half_x
  let sin_y_2 := Real.sin half_y
  let sin_z_2 := Real.sin half_z
  ⟨cos_x_2 * cos_y_2 * cos_z_2 + sin_x_2 * sin_y_2 * sin_z_2,
   sin_x_2 * cos_y_2 * cos_z_2 + cos_x_2 * sin_y_2 * sin_z_2,
   cos_x_2 * sin_y_2 * cos_z_2 + sin_x_2 * cos_y_2 * sin_z_2,
   cos_x_2 * cos_y_2 * sin_z_2 + sin_x_2 * sin_y_2 * cos_z_2⟩

end Defs

end Quaternions

namespace Quaternions

/-! ## Helper lemmas -/

/-- Two quaternions with equal components are equal. -/
@[ext] theorem Quaternion.ext_fields {K : Type} (a b : Quaternion K)
    (hw : a.w = b.w) (hx : a.x = b.x) (hy : a.y = b.y) (hz : a.z = b.z) : a = b := by
  cases a; cases b; simp_all

/-- The `*` notation is the Hamilton product of the source. -/
theorem mul_def {K : Type} [Field K] (a b : Quaternion K) : a * b = a.mul b := rfl

/-- The `/` notation is the division of the source. -/
theorem div_def {K : Type} [Field K] (a b : Quaternion K) : a / b = a.div b := rfl

/-- The `-` notation is the component-wise difference of the source. -/
theorem sub_def {K : Type} [Field K] (a b : Quaternion K) : a - b = a.sub b := rfl

/-- The `+` notation is the component-wise sum of the source. -/
theorem add_def {K : Type} [Field K] (a b : Quaternion K) : a + b = a.add b := rfl

/-- The Hamilton product is associative. -/
theorem quat_mul_assoc {K : Type} [Field K] (a b c : Quaternion K) :
    a * b * c = a * (b * c) := by
  ext <;> simp [mul_def, Quaternion.mul] <;> ring

/-- Right multiplication by the identity changes nothing. -/
theorem quat_mul_id {K : Type} [Field K] (a : Quaternion K) : a * Quaternion.id = a := by
  ext <;> simp [mul_def, Quaternion.mul, Quaternion.id]

/-- A quaternion of non-zero square length times its inverse is the identity. -/
theorem quat_mul_inverse_self {K : Type} [Field K] (b : Quaternion K)
    (h : b.square_length ≠ 0) : b * b.inverse = Quaternion.id := by
  have h' : b.w * b.w + b.x * b.x + b.y * b.y + b.z * b.z ≠ 0 := h
  ext <;>
    simp [mul_def, Quaternion.mul, Quaternion.inverse, Quaternion.scale,
      Quaternion.conjugate, Quaternion.id, Quaternion.square_length] <;>
    field_simp <;> ring

/-! ## Claim theorems -/

/-- C2: for all quaternions `a` and `b`, `a * b` is the Hamilton product
with components w = w1 w2 - x1 x2 - y1 y2 - z1 z2,
x = w1 x2 + x1 w2 + y1 z2 - z1 y2, y = w1 y2 - x1 z2 + y1 w2 + z1 x2,
z = w1 z2 + x1 y2 - y1 x2 + z1 w2; in particular
(1,2,3,4) * (5,6,7,8) = (-60,12,30,24) while
(5,6,7,8) * (1,2,3,4) = (-60,20,14,32), so multiplication is not
commutative. -/
theorem mul_is_hamilton_product {K : Type} [Field K] :
    (∀ a b : Quaternion K,
      a * b = q (a.w * b.w - a.x * b.x - a.y * b.y - a.z * b.z)
                (a.w * b.x + a.x * b.w + a.y * b.z - a.z * b.y)
                (a.w * b.y - a.x * b.z + a.y * b.w + a.z * b.x)
                (a.w * b.z + a.x * b.y - a.y * b.x + a.z * b.w)) ∧
    (qi 1 2 3 4 : Quaternion ℚ) * qi 5 6 7 8 = qi (-60) 12 30 24 ∧
    (qi 5 6 7 8 : Quaternion ℚ) * qi 1 2 3 4 = qi (-60) 20 14 32 ∧
    (qi 1 2 3 4 : Quaternion ℚ) * qi 5 6 7 8 ≠ (qi 5 6 7 8 : Quaternion ℚ) * qi 1 2 3 4 := by
  refine ⟨fun a b => rfl, ?_, ?_, ?_⟩ <;>
    simp [qi, q, mul_def, Quaternion.mul, Quaternion.mk.injEq] <;> norm_num

/-- C3: for all quaternions `a` and `b`, `a / b` is `a` multiplied on the
right by the inverse of `b` (not the inverse of `b` times `a`, which in
general differs), where the inverse of `b` is the conjugate of `b` scaled
by one over the square length of `b`. -/
theorem div_is_right_mul_by_inverse {K : Type} [Field K] :
    (∀ a b : Quaternion K, a / b = a * b.inverse) ∧
    (∀ b : Quaternion K, b.inverse = b.conjugate.scale (1 / b.square_length)) ∧
    (qi (-60) 12 30 24 : Quaternion ℚ) / qi 5 6 7 8 ≠
      (qi 5 6 7 8 : Quaternion ℚ).inverse * qi (-60) 12 30 24 := by
  refine ⟨fun a b => rfl, fun b => ?_, ?_⟩
  · ext <;> simp [Quaternion.inverse, Quaternion.scale, Quaternion.conjugate]
  · simp [qi, q, mul_def, div_def, Quaternion.div, Quaternion.mul, Quaternion.inverse,
      Quaternion.scale, Quaternion.conjugate, Quaternion.square_length, Quaternion.mk.injEq]
    norm_num

/-- C7: each in-place operation (scale_mut, conjugate_mut, inverse_mut,
the add, subtract and multiply assignment operators) leaves the receiver
component-for-component identical to the result of the corresponding
immutable operation on the original receiver. -/
theorem mut_variants_match_immutable {K : Type} [Field K] (a b : Quaternion K) (t : K) :
    a.scale_mut t = a.scale t ∧
    a.conjugate_mut = a.conjugate ∧
    a.inverse_mut = a.inverse ∧
    a.add_assign b = a + b ∧
    a.sub_assign b = a - b ∧
    a.mul_assign b = a * b :=
  ⟨rfl, rfl, rfl, rfl, rfl, rfl⟩

/-- C8: `id` returns (1, 0, 0, 0) and it is a two-sided multiplicative
identity: `id * a = a` and `a * id = a` for every quaternion `a`. -/
theorem id_is_two_sided_identity {K : Type} [Field K] :
    (Quaternion.id : Quaternion K) = q 1 0 0 0 ∧
    ∀ a : Quaternion K, Quaternion.id * a = a ∧ a * Quaternion.id = a := by
  refine ⟨rfl, fun a => ⟨?_, ?_⟩⟩ <;>
    ext <;> simp [mul_def, Quaternion.mul, Quaternion.id]

/-- C9: the integer convenience constructor `qi` never fails — the
fallible conversion path always returns `some`, so the unwraps are
unreachable — and the result has the converted arguments as components. -/
theorem qi_never_fails {K : Type} [Field K] (w x y z : Int) :
    qiChecked K w x y z = some (qi w x y z) ∧
    (qi w x y z : Quaternion K) = q (w : K) (x : K) (y : K) (z : K) :=
  ⟨rfl, rfl⟩

/-- C10: the square length of a Hamilton product is the product of the
square lengths of the factors. -/
theorem square_length_mul_distrib {K : Type} [Field K] (a b : Quaternion K) :
    (a * b).square_length = a.square_length * b.square_length := by
  simp [mul_def, Quaternion.mul, Quaternion.square_length]; ring

/-- C4: for every quaternion `a` of non-zero square length, the product
of the inverse of `a` with `a` is the identity quaternion (1, 0, 0, 0)
(exactly, in the exact-field model, hence within any tolerance). -/
theorem inverse_mul_self_eq_id {K : Type} [Field K] (a : Quaternion K)
    (h : a.square_length ≠ 0) : a.inverse * a = Quaternion.id := by
  have h' : a.w * a.w + a.x * a.x + a.y * a.y + a.z * a.z ≠ 0 := h
  ext <;>
    simp [mul_def, Quaternion.mul, Quaternion.inverse, Quaternion.scale,
      Quaternion.conjugate, Quaternion.id, Quaternion.square_length] <;>
    field_simp <;> ring

/-- Witness for C4 at a = (1, 2, 3, 4) over the rationals. -/
theorem inverse_mul_self_eq_id_witness :
    (qi 1 2 3 4 : Quaternion ℚ).square_length ≠ 0 ∧
    (qi 1 2 3 4 : Quaternion ℚ).inverse * qi 1 2 3 4 = Quaternion.id :=
  ⟨by simp [qi, q, Quaternion.square_length]; norm_num,
   inverse_mul_self_eq_id _ (by simp [qi, q, Quaternion.square_length]; norm_num)⟩

/-- C5: for all quaternions `a` and `b` with `b` of non-zero square
length, `(a * b) / b = a` (exactly, in the exact-field model, hence
within any tolerance) — the right-division round-trip. -/
theorem mul_div_roundtrip {K : Type} [Field K] (a b : Quaternion K)
    (h : b.square_length ≠ 0) : a * b / b = a := by
  have hb : b * b.inverse = Quaternion.id := quat_mul_inverse_self b h
  calc a * b / b = a * b * b.inverse := rfl
    _ = a * (b * b.inverse) := quat_mul_assoc a b b.inverse
    _ = a * Quaternion.id := by rw [hb]
    _ = a := quat_mul_id a

/-- Witness for C5 at a = (1, 2, 3, 4), b = (5, 6, 7, 8) over the
rationals. -/
theorem mul_div_roundtrip_witness :
    (qi 5 6 7 8 : Quaternion ℚ).square_length ≠ 0 ∧
    (qi 1 2 3 4 : Quaternion ℚ) * qi 5 6 7 8 / qi 5 6 7 8 = qi 1 2 3 4 :=
  ⟨by simp [qi, q, Quaternion.square_length]; norm_num,
   mul_div_roundtrip _ _ (by simp [qi, q, Quaternion.square_length]; norm_num)⟩

/-- C6: the equality test holds exactly when the square length of the
difference is strictly below the scalar type's machine epsilon; the
comparison is strict: a pair whose difference has square length exactly
the f32 epsilon compares unequal. -/
theorem eq_iff_square_length_lt_epsilon :
    (∀ (K : Type) [LinearOrderedField K], ∀ (eps : K) (a b : Quaternion K),
      approx_eq eps a b ↔ (a - b).square_length < eps) ∧
    (q (1 / 2 ^ 12) (1 / 2 ^ 12) 0 0 - q 0 0 0 0 : Quaternion ℚ).square_length = epsF32 ∧
    ¬ approx_eq epsF32 (q (1 / 2 ^ 12) (1 / 2 ^ 12) 0 0 : Quaternion ℚ) (q 0 0 0 0) := by
  refine ⟨fun K _ eps a b => Iff.rfl, ?_, ?_⟩ <;>
    simp [approx_eq, sub_def, Quaternion.sub, Quaternion.square_length, q, epsF32] <;>
    norm_num

/-- The square length of the code's Euler-angle quaternion: one plus the
product of the sines of the three input angles. -/
theorem from_euler_angles_square_length (x y z : ℝ) :
    (from_euler_angles x y z).square_length =
      1 + Real.sin x * Real.sin y * Real.sin z := by
  have hx := Real.sin_sq_add_cos_sq (x / 2)
  have hy := Real.sin_sq_add_cos_sq (y / 2)
  have hz := Real.sin_sq_add_cos_sq (z / 2)
  have sx : Real.sin x = 2 * Real.sin (x / 2) * Real.cos (x / 2) := by
    rw [← Real.sin_two_mul, mul_div_cancel₀]
    norm_num
  have sy : Real.sin y = 2 * Real.sin (y / 2) * Real.cos (y / 2) := by
    rw [← Real.sin_two_mul, mul_div_cancel₀]
    norm_num
  have sz : Real.sin z = 2 * Real.sin (z / 2) * Real.cos (z / 2) := by
    rw [← Real.sin_two_mul, mul_div_cancel₀]
    norm_num
  have h2 : (1 : ℝ) + 1 = 2 := by norm_num
  simp only [from_euler_angles, Quaternion.square_length, h2]
  rw [sx, sy, sz]
  linear_combination
    ((Real.sin (y / 2) ^ 2 + Real.cos (y / 2) ^ 2) *
        (Real.sin (z / 2) ^ 2 + Real.cos (z / 2) ^ 2)) * hx +
      (Real.sin (z / 2) ^ 2 + Real.cos (z / 2) ^ 2) * hy + hz

/-- C1 fails on the code: the quaternion built by `from_euler_angles` has
square length 1 plus the product of the sines of the inputs, so at
x = y = z = pi / 2 the square length is exactly 2, not approximately 1.
(The repository's own test asserts the unit property, but only at
(pi, pi, pi), where the sine product vanishes.) -/
theorem from_euler_angles_not_unit :
    (from_euler_angles (Real.pi / 2) (Real.pi / 2) (Real.pi / 2)).square_length = 2 ∧
    ∀ x y z : ℝ, (from_euler_angles x y z).square_length =
      1 + Real.sin x * Real.sin y * Real.sin z := by
  refine ⟨?_, from_euler_angles_square_length⟩
  rw [from_euler_angles_square_length, Real.sin_pi_div_two]
  norm_num
